import Mathlib

/-!
Shallow embedding of `src/pasv-test-irqbalance.py`.

The script has two analysis cores:
* a marker scanner (`mem.find` over the mmapped executable, one result per
  marker of `MARKERS`, in order), and
* an IRQ statistics aggregator (`get_irq_statistics` parsing the
  `/proc/interrupts` text, plus the exclusivity aggregation loop in `main`
  built from `count_nonzero_values` and `get_nonzero_index`).

File contents are modelled as values: the interrupt file as its list of
lines (without the trailing newline, which `str.split()` discards anyway),
the executable as a list of byte values, and the filesystem visible to a
helper as a function from path to optional content.  Python exceptions that
escape a function are modelled with `Except`.
-/

set_option autoImplicit false

/-- Splitter state machine for Python `str.split()` (no separator argument):
split on runs of whitespace, producing no empty tokens.  `cur` is the
current token being accumulated, in reverse. -/
def wsTokensAux : List Char → List Char → List (List Char)
  | [], cur => if cur = [] then [] else [cur.reverse]
  | c :: cs, cur =>
    if c.isWhitespace then
      if cur = [] then wsTokensAux cs []
      else cur.reverse :: wsTokensAux cs []
    else wsTokensAux cs (c :: cur)

/-- Python `s.split()`: the list of maximal whitespace-free runs of `s`. -/
def pySplit (s : String) : List String :=
  (wsTokensAux s.data []).map String.mk

/-- Remove every leading and trailing occurrence of `c` (Python `s.strip(c)`
for a single-character argument). -/
def stripCharList (c : Char) (cs : List Char) : List Char :=
  ((cs.dropWhile (fun d => d = c)).reverse.dropWhile (fun d => d = c)).reverse

/-- Python `columns[0].strip(':')`. -/
def pyStripColon (s : String) : String :=
  String.mk (stripCharList ':' s.data)

/-- Python `s.strip()`: drop leading and trailing whitespace. -/
def pyStrip (s : String) : String :=
  String.mk (((s.data.dropWhile Char.isWhitespace).reverse.dropWhile
    Char.isWhitespace).reverse)

/-- Value of a non-empty all-digit run, most significant digit first. -/
def digitsToNat (cs : List Char) : Nat :=
  cs.foldl (fun a c => a * 10 + (c.toNat - 48)) 0

/-- Parse a non-empty string of decimal digits. -/
def parseDigits (cs : List Char) : Option Nat :=
  if cs = [] then none
  else if cs.all Char.isDigit then some (digitsToNat cs) else none

/-- Python `int(x)` on a whitespace-free token: an optional single sign
followed by a non-empty digit run; anything else raises `ValueError`
(modelled as `none`).  (Underscore digit grouping, never present in
the interrupt table, is not modelled.) -/
def parsePyInt (s : String) : Option Int :=
  match s.data with
  | [] => none
  | c :: rest =>
    if c = '-' then (parseDigits rest).map (fun n => -(Int.ofNat n))
    else if c = '+' then (parseDigits rest).map (fun n => Int.ofNat n)
    else (parseDigits (c :: rest)).map (fun n => Int.ofNat n)

/-- The list comprehension `[ int(x) for x in columns[1:cpu_count] ]` applied
to its token list: all-or-nothing integer parsing, `none` models the
`ValueError` raised at the first unparseable token. -/
def mapParse : List String → Option (List Int)
  | [] => some []
  | t :: rest =>
    match parsePyInt t with
    | none => none
    | some n => (mapParse rest).map (fun l => n :: l)

/-- `result[irq_name] = irqs_per_cpu` on a Python dict modelled as an
insertion-ordered association list: replace in place if the key exists,
else append. -/
def dictInsert (d : List (String × List Int)) (k : String) (v : List Int) :
    List (String × List Int) :=
  if d.any (fun p => p.1 = k) then
    d.map (fun p => if p.1 = k then (k, v) else p)
  else d ++ [(k, v)]

/-- The `while f:` body loop of `get_irq_statistics`, one step per remaining
line.  End of file makes `readline()` return `""`, which splits to zero
columns, so the empty list of remaining lines returns like a short line
does.  A `ValueError` from `int(x)` escapes the loop; `Except.error`
carries the offending line. -/
def parseIrqLines : List String → Nat → List (String × List Int) →
    Except String (List (String × List Int))
  | [], _, acc => Except.ok acc
  | l :: rest, cpu_count, acc =>
    let columns := pySplit l
    if columns.length ≤ 1 then Except.ok acc
    else
      let irq_name := pyStripColon (columns.headD "")
      if irq_name = "ERR" ∨ irq_name = "MIS" then
        parseIrqLines rest cpu_count acc
      else
        match mapParse ((columns.drop 1).take (cpu_count - 1)) with
        | none => Except.error l
        | some irqs_per_cpu =>
          parseIrqLines rest cpu_count (dictInsert acc irq_name irqs_per_cpu)

/-- `get_irq_statistics`, on the contents of `/proc/interrupts` given as its
list of lines.  The first line is the CPU header; its column count is
`cpu_count`.  Each accepted body line contributes
`columns[1:cpu_count]` parsed as integers, keyed by `columns[0].strip(':')`;
`ERR` and `MIS` lines are skipped; parsing stops at the first line with at
most one column. -/
def get_irq_statistics (lines : List String) :
    Except String (List (String × List Int)) :=
  match lines with
  | [] => Except.ok []
  | header :: rest =>
    let cpu_count := (pySplit header).length
    parseIrqLines rest cpu_count []

/-- `count_nonzero_values(vec)`: the number of nonzero entries. -/
def count_nonzero_values : List Int → Nat
  | [] => 0
  | x :: xs => (if x ≠ 0 then 1 else 0) + count_nonzero_values xs

/-- Helper for `get_nonzero_index`: the Python loop carries the running
`index` counter. -/
def get_nonzero_index_from : List Int → Nat → Option Nat
  | [], _ => none
  | x :: xs, i => if x ≠ 0 then some i else get_nonzero_index_from xs (i + 1)

/-- `get_nonzero_index(vec)`: index of the first nonzero entry; falling off
the loop returns Python's implicit `None`. -/
def get_nonzero_index (vec : List Int) : Option Nat :=
  get_nonzero_index_from vec 0

/-- One iteration of the exclusivity aggregation loop in `main`:
`if count_nonzero_values(irqs[irq]) == 1: irqs_per_cpu[cpu_index] += irqs[irq][cpu_index]`.
Lines whose nonzero count differs from 1 leave the accumulator unchanged. -/
def aggStep (irqs_per_cpu : List Int) (vec : List Int) : List Int :=
  if count_nonzero_values vec = 1 then
    match get_nonzero_index vec with
    | some cpu_index =>
      irqs_per_cpu.set cpu_index
        (irqs_per_cpu.getD cpu_index 0 + vec.getD cpu_index 0)
    | none => irqs_per_cpu
  else irqs_per_cpu

/-- The whole aggregation of `main`: start from `[ 0 ] * cpu_count` and fold
the loop body over the interrupt table in insertion order. -/
def aggregateExclusive (table : List (String × List Int)) (cpu_count : Nat) :
    List Int :=
  table.foldl (fun acc p => aggStep acc p.2) (List.replicate cpu_count 0)

/-- `MARKERS`, the configured marker set. -/
def MARKERS : List String :=
  ["libcap-ng.so.0", "libnuma.so.1", "/sys/devices/system/cpu",
   "%s/topology/core_siblings", "/proc/interrupts", "/proc/irq/%i/node",
   "g_main_loop_run", "g_list_append",
   "irqbalance"]

/-- `bytes(marker, "utf-8")` for the ASCII-only markers of `MARKERS`:
each character is one byte. -/
def strBytes (s : String) : List Nat :=
  s.data.map Char.toNat

/-- Byte-list prefix test, the per-position check inside `mmap.find`. -/
def isPrefixB : List Nat → List Nat → Bool
  | [], _ => true
  | _ :: _, [] => false
  | n :: ns, h :: hs => if n = h then isPrefixB ns hs else false

/-- `mem.find(needle)` scanning from position `i`: the lowest index at which
`needle` occurs in `hay`, or `none` for Python's `-1`. -/
def pyFindAux (needle : List Nat) : List Nat → Nat → Option Nat
  | [], i => if isPrefixB needle [] then some i else none
  | h :: t, i =>
    if isPrefixB needle (h :: t) then some i
    else pyFindAux needle t (i + 1)

/-- `mem.find(needle)` on the full mapped contents. -/
def pyFind (hay needle : List Nat) : Option Nat :=
  pyFindAux needle hay 0

/-- The marker scan loop: for each marker, in order, whether
`mem.find(bytes(marker, "utf-8")) == -1` is false, i.e. the marker was
found. -/
def scanMarkers (markers : List (List Nat)) (content : List Nat) :
    List Bool :=
  markers.map (fun m => (pyFind content m).isSome)

/-- Outcome of the marker-scan step of `main`: either the whole step was
skipped (the executable could not be opened, the `SKIP` report line), or
the file was scanned and there is one found/not-found result per marker. -/
inductive ScanOutcome where
  | skipped : ScanOutcome
  | scanned : List Bool → ScanOutcome
deriving DecidableEq

/-- The guarded marker-scan step of `main`: `os.open` failing (the path is
absent from the readable filesystem `fs`) sets `fd = None` and the step
reports a single skip; otherwise the mapped contents are scanned marker by
marker. -/
def markerScanStep (fs : String → Option (List Nat)) (path : String)
    (markers : List (List Nat)) : ScanOutcome :=
  match fs path with
  | none => ScanOutcome.skipped
  | some content => ScanOutcome.scanned (scanMarkers markers content)

/-- `read_one_line`, including its broken handler.  `fs` maps a path to its
content when the file can be opened and read; a missing or unreadable path
makes `io.open` raise an I/O error, and the handler clause `except e:`
then evaluates the unbound name `e`, so Python raises `NameError` instead
of reaching `return None`.  On success the first line (up to a newline) is
returned stripped of surrounding whitespace. -/
def read_one_line (fs : String → Option String) (path : String) :
    Except String String :=
  match fs path with
  | some content => Except.ok (pyStrip (String.mk (content.data.takeWhile (fun c => c ≠ '\n'))))
  | none => Except.error "NameError"

/-! ## Lemmas about the marker scanner -/

theorem isPrefixB_iff (ns : List Nat) :
    ∀ hs, isPrefixB ns hs = true ↔ ∃ t, hs = ns ++ t := by
  induction ns with
  | nil => intro hs; simp [isPrefixB]
  | cons n ns ih =>
    intro hs
    cases hs with
    | nil => simp [isPrefixB]
    | cons h t =>
      simp only [isPrefixB]
      by_cases hnh : n = h
      · subst hnh
        rw [if_pos rfl, ih t]
        constructor
        · rintro ⟨u, rfl⟩; exact ⟨u, rfl⟩
        · rintro ⟨u, hu⟩
          rw [List.cons_append] at hu
          exact ⟨u, (List.cons.injEq _ _ _ _ ▸ hu).2⟩
      · rw [if_neg hnh]
        constructor
        · intro hf; cases hf
        · rintro ⟨u, hu⟩
          rw [List.cons_append] at hu
          exact absurd (List.cons.injEq _ _ _ _ ▸ hu).1.symm hnh

theorem pyFindAux_isSome (needle : List Nat) :
    ∀ (hay : List Nat) (i : Nat),
      (pyFindAux needle hay i).isSome = true ↔
        ∃ pre post, hay = pre ++ needle ++ post := by
  intro hay
  induction hay with
  | nil =>
    intro i
    simp only [pyFindAux]
    by_cases h : isPrefixB needle [] = true
    · rw [if_pos h]
      obtain ⟨t, ht⟩ := (isPrefixB_iff needle []).mp h
      have hn : needle = [] := by
        cases needle with
        | nil => rfl
        | cons a l => simp at ht
      subst hn
      simp
    · rw [if_neg h]
      simp only [Option.isSome_none, Bool.false_eq_true, false_iff]
      rintro ⟨pre, post, hpp⟩
      apply h
      rw [isPrefixB_iff]
      have hpre : pre = [] ∧ needle ++ post = [] := by
        constructor
        · cases pre with
          | nil => rfl
          | cons a l => simp at hpp
        · cases pre with
          | nil => simpa using hpp.symm
          | cons a l => simp at hpp
      obtain ⟨rfl, h2⟩ := hpre
      have : needle = [] := by
        cases needle with
        | nil => rfl
        | cons a l => simp at h2
      subst this
      exact ⟨[], rfl⟩
  | cons hd tl ih =>
    intro i
    simp only [pyFindAux]
    by_cases h : isPrefixB needle (hd :: tl) = true
    · rw [if_pos h]
      simp only [Option.isSome_some, true_iff]
      obtain ⟨t, ht⟩ := (isPrefixB_iff needle (hd :: tl)).mp h
      exact ⟨[], t, by simpa using ht⟩
    · rw [if_neg h, ih (i + 1)]
      constructor
      · rintro ⟨pre, post, rfl⟩
        exact ⟨hd :: pre, post, rfl⟩
      · rintro ⟨pre, post, hpp⟩
        cases pre with
        | nil =>
          exfalso
          apply h
          rw [isPrefixB_iff]
          exact ⟨post, by simpa using hpp⟩
        | cons p pre' =>
          rw [List.cons_append, List.cons_append] at hpp
          exact ⟨pre', post, (List.cons.injEq _ _ _ _ ▸ hpp).2⟩

theorem scanMarkers_getD (M : List (List Nat)) (C : List Nat) :
    ∀ i, i < M.length →
      (scanMarkers M C).getD i false = (pyFind C (M.getD i [])).isSome := by
  induction M with
  | nil => intro i hi; simp at hi
  | cons m ms ih =>
    intro i hi
    cases i with
    | zero => rfl
    | succ j => exact ih j (by simpa using hi)

/-- C3: for every marker set `M` and executable contents `C`, the scan loop
reports one result per marker in input order, and the result at position `i`
is "found" exactly when marker `i` occurs as a contiguous byte substring of
`C`. -/
theorem C3_marker_scan_correct (M : List (List Nat)) (C : List Nat) :
    (scanMarkers M C).length = M.length ∧
    ∀ i, i < M.length →
      ((scanMarkers M C).getD i false = true ↔
        ∃ pre post, C = pre ++ M.getD i [] ++ post) := by
  refine ⟨by simp [scanMarkers], ?_⟩
  intro i hi
  rw [scanMarkers_getD M C i hi]
  exact pyFindAux_isSome (M.getD i []) C 0

/-- Witness for C3 at a concrete marker set and contents. -/
theorem C3_marker_scan_correct_witness :
    (scanMarkers [[97, 98], [99]] [120, 97, 98]).length = 2 ∧
    ((scanMarkers [[97, 98], [99]] [120, 97, 98]).getD 0 false = true ↔
      ∃ pre post, [120, 97, 98] = pre ++ [97, 98] ++ post) :=
  ⟨(C3_marker_scan_correct [[97, 98], [99]] [120, 97, 98]).1,
   (C3_marker_scan_correct [[97, 98], [99]] [120, 97, 98]).2 0 (by decide)⟩

/-- C7: when the executable path cannot be opened, the scan step is the
single `skipped` outcome, which carries no per-marker results and is
distinct from every `scanned` outcome, in particular from scanning a file
in which every marker is absent. -/
theorem C7_unreadable_path_skipped (fs : String → Option (List Nat))
    (path : String) (markers : List (List Nat)) (h : fs path = none) :
    markerScanStep fs path markers = ScanOutcome.skipped ∧
    ∀ content : List Nat,
      ScanOutcome.skipped ≠ ScanOutcome.scanned (scanMarkers markers content) := by
  refine ⟨?_, ?_⟩
  · unfold markerScanStep
    rw [h]
  · intro content hEq
    cases hEq

/-- Witness for C7 on an empty filesystem. -/
theorem C7_unreadable_path_skipped_witness :
    markerScanStep (fun _ => none) "/usr/sbin/irqbalance" [[105]] =
      ScanOutcome.skipped ∧
    ∀ content : List Nat,
      ScanOutcome.skipped ≠ ScanOutcome.scanned (scanMarkers [[105]] content) :=
  C7_unreadable_path_skipped (fun _ => none) "/usr/sbin/irqbalance" [[105]] rfl

/-- C9 (code bug): evaluating `read_one_line` as written.  On a path that
cannot be opened the broken handler `except e:` raises `NameError` instead
of returning `None`; on a readable file the stripped first line is
returned.  The claim (and the function's own docstring) says the error
path returns `None` without throwing. -/
theorem C9_read_one_line_eval :
    read_one_line (fun _ => none) "/proc/1/cmdline" =
      Except.error "NameError" ∧
    read_one_line (fun p => if p = "/tmp/f" then some " hello\nworld" else none)
      "/tmp/f" = Except.ok "hello" :=
  ⟨rfl, rfl⟩

/-! ## Lemmas about `count_nonzero_values` and `get_nonzero_index` -/

theorem count_nonzero_eq_zero (v : List Int) :
    count_nonzero_values v = 0 ↔ ∀ x ∈ v, x = 0 := by
  induction v with
  | nil => simp [count_nonzero_values]
  | cons x xs ih =>
    simp only [count_nonzero_values]
    by_cases hx : x = 0
    · subst hx
      simp [ih]
    · simp [hx]

theorem getD_zero_of_all_zero (v : List Int) (h : ∀ x ∈ v, x = 0) :
    ∀ k, v.getD k 0 = 0 := by
  induction v with
  | nil => intro k; simp
  | cons x xs ih =>
    intro k
    cases k with
    | zero => simpa using h x (by simp)
    | succ k' =>
      simp only [List.getD_cons_succ]
      exact ih (fun y hy => h y (by simp [hy])) k'

theorem get_nonzero_index_from_shift (v : List Int) :
    ∀ i, get_nonzero_index_from v i =
      (get_nonzero_index_from v 0).map (fun k => k + i) := by
  induction v with
  | nil => intro i; simp [get_nonzero_index_from]
  | cons x xs ih =>
    intro i
    by_cases hx : x = 0
    · simp only [get_nonzero_index_from, hx, ne_eq, not_true_eq_false, if_false]
      rw [ih (i + 1), ih 1]
      cases get_nonzero_index_from xs 0 with
      | none => rfl
      | some k => simp [Option.map_some]; omega
    · simp [get_nonzero_index_from, hx]

theorem gnif_eq_none (v : List Int) (h : ∀ x ∈ v, x = 0) :
    ∀ i, get_nonzero_index_from v i = none := by
  induction v with
  | nil => intro i; rfl
  | cons x xs ih =>
    intro i
    have hx : x = 0 := h x (by simp)
    simp only [get_nonzero_index_from, hx, ne_eq, not_true_eq_false, if_false]
    exact ih (fun y hy => h y (by simp [hy])) (i + 1)

theorem count_one_exists (v : List Int) (h : count_nonzero_values v = 1) :
    ∃ i, get_nonzero_index v = some i ∧ i < v.length ∧ v.getD i 0 ≠ 0 ∧
      ∀ j, j < v.length → j ≠ i → v.getD j 0 = 0 := by
  induction v with
  | nil => simp [count_nonzero_values] at h
  | cons x xs ih =>
    by_cases hx : x = 0
    · subst hx
      have hxs : count_nonzero_values xs = 1 := by
        simpa [count_nonzero_values] using h
      obtain ⟨i, hgi, hlen, hnz, huniq⟩ := ih hxs
      refine ⟨i + 1, ?_, by simpa using Nat.succ_lt_succ hlen, by simpa using hnz, ?_⟩
      · show get_nonzero_index_from (0 :: xs) 0 = some (i + 1)
        simp only [get_nonzero_index_from, ne_eq, not_true_eq_false, if_false]
        rw [get_nonzero_index_from_shift xs 1]
        rw [show get_nonzero_index_from xs 0 = some i from hgi]
        rfl
      · intro j hj hji
        cases j with
        | zero => simp
        | succ j' =>
          have hj' : j' < xs.length := by simpa using hj
          have hne : j' ≠ i := fun hh => hji (by simp [hh])
          simpa using huniq j' hj' hne
    · have hxs : count_nonzero_values xs = 0 := by
        simp only [count_nonzero_values, ne_eq, hx, not_false_eq_true, if_true] at h
        omega
      have hall := (count_nonzero_eq_zero xs).mp hxs
      refine ⟨0, ?_, by simp, by simpa using hx, ?_⟩
      · simp [get_nonzero_index, get_nonzero_index_from, hx]
      · intro j hj hj0
        cases j with
        | zero => exact absurd rfl hj0
        | succ j' => simpa using getD_zero_of_all_zero xs hall j'

/-- C10: when a vector has exactly one nonzero entry, `get_nonzero_index`
returns precisely the unique index holding a nonzero value; on an all-zero
vector it returns `none` (Python's implicit `None`). -/
theorem C10_get_nonzero_index_spec (v : List Int) :
    (count_nonzero_values v = 1 →
      ∃ i, get_nonzero_index v = some i ∧ i < v.length ∧ v.getD i 0 ≠ 0 ∧
        ∀ j, j < v.length → v.getD j 0 ≠ 0 → j = i) ∧
    ((∀ x ∈ v, x = 0) → get_nonzero_index v = none) := by
  constructor
  · intro h
    obtain ⟨i, hgi, hlen, hnz, huniq⟩ := count_one_exists v h
    refine ⟨i, hgi, hlen, hnz, ?_⟩
    intro j hj hjnz
    by_contra hne
    exact hjnz (huniq j hj hne)
  · intro h
    exact gnif_eq_none v h 0

/-- Witness for C10 on `[0, 5]` (one nonzero entry) and `[0, 0]` (all
zero). -/
theorem C10_get_nonzero_index_spec_witness :
    (∃ i, get_nonzero_index [(0 : Int), 5] = some i ∧
      i < ([(0 : Int), 5]).length ∧ ([(0 : Int), 5]).getD i 0 ≠ 0 ∧
      ∀ j, j < ([(0 : Int), 5]).length → ([(0 : Int), 5]).getD j 0 ≠ 0 → j = i) ∧
    get_nonzero_index [(0 : Int), 0] = none :=
  ⟨(C10_get_nonzero_index_spec [0, 5]).1 (by decide),
   (C10_get_nonzero_index_spec [0, 0]).2 (by decide)⟩

/-- C4: one step of the exclusivity aggregation.  A vector with exactly one
nonzero entry adds that entry's value to the accumulator slot at its index
(the unique nonzero index, which is what `get_nonzero_index` returns); a
vector with zero, or with two or more, nonzero entries leaves every slot of
the accumulator unchanged. -/
theorem C4_aggregation_step (acc v : List Int) :
    (count_nonzero_values v = 1 →
      ∃ i, get_nonzero_index v = some i ∧ i < v.length ∧ v.getD i 0 ≠ 0 ∧
        (∀ j, j < v.length → j ≠ i → v.getD j 0 = 0) ∧
        (i < acc.length →
          aggStep acc v = acc.set i (acc.getD i 0 + v.getD i 0))) ∧
    (count_nonzero_values v ≠ 1 → aggStep acc v = acc) := by
  constructor
  · intro h1
    obtain ⟨i, hgi, hlen, hnz, huniq⟩ := count_one_exists v h1
    refine ⟨i, hgi, hlen, hnz, huniq, ?_⟩
    intro _hacc
    unfold aggStep
    rw [if_pos h1, hgi]
  · intro h
    simp [aggStep, h]

/-- Witness for C4 on accumulator `[0, 0]` with the exclusive vector
`[0, 5]` and the shared vector `[3, 4]`. -/
theorem C4_aggregation_step_witness :
    (∃ i, get_nonzero_index [(0 : Int), 5] = some i ∧
      i < ([(0 : Int), 5]).length ∧ ([(0 : Int), 5]).getD i 0 ≠ 0 ∧
      (∀ j, j < ([(0 : Int), 5]).length → j ≠ i →
        ([(0 : Int), 5]).getD j 0 = 0) ∧
      (i < ([(0 : Int), 0]).length →
        aggStep [(0 : Int), 0] [(0 : Int), 5] =
          ([(0 : Int), 0]).set i
            (([(0 : Int), 0]).getD i 0 + ([(0 : Int), 5]).getD i 0))) ∧
    aggStep [(0 : Int), 0] [(3 : Int), 4] = [(0 : Int), 0] :=
  ⟨(C4_aggregation_step [0, 0] [0, 5]).1 (by decide),
   (C4_aggregation_step [0, 0] [3, 4]).2 (by decide)⟩

/-! ## Lemmas about the interrupt-table parser -/

theorem parseIrqLines_cons (l : String) (rest : List String) (cpu_count : Nat)
    (acc : List (String × List Int)) :
    parseIrqLines (l :: rest) cpu_count acc =
      if (pySplit l).length ≤ 1 then Except.ok acc
      else if pyStripColon ((pySplit l).headD "") = "ERR" ∨
          pyStripColon ((pySplit l).headD "") = "MIS" then
        parseIrqLines rest cpu_count acc
      else
        match mapParse (((pySplit l).drop 1).take (cpu_count - 1)) with
        | none => Except.error l
        | some irqs_per_cpu =>
          parseIrqLines rest cpu_count
            (dictInsert acc (pyStripColon ((pySplit l).headD "")) irqs_per_cpu) :=
  rfl

theorem parseIrqLines_post_indep (l : String) (hl : (pySplit l).length ≤ 1) :
    ∀ (pre : List String) (post post' : List String) (cpu_count : Nat)
      (acc : List (String × List Int)),
      parseIrqLines (pre ++ l :: post) cpu_count acc =
        parseIrqLines (pre ++ l :: post') cpu_count acc := by
  intro pre
  induction pre with
  | nil =>
    intro post post' cpu_count acc
    rw [List.nil_append, List.nil_append, parseIrqLines_cons, parseIrqLines_cons,
      if_pos hl, if_pos hl]
  | cons m pre' ih =>
    intro post post' cpu_count acc
    rw [List.cons_append, List.cons_append, parseIrqLines_cons, parseIrqLines_cons]
    split_ifs with h1 h2
    · rfl
    · exact ih post post' cpu_count acc
    · cases hm : mapParse (((pySplit m).drop 1).take (cpu_count - 1)) with
      | none => rfl
      | some v => exact ih post post' cpu_count _

/-- C6: the parsing loop of `get_irq_statistics` (a total function here, so
it terminates on every input) stops at the first body line with at most one
whitespace token: whatever lines follow that point never influence the
result, and at such a line the loop returns normally (`Except.ok`) with the
table accumulated so far, for any state `acc` the loop may have reached. -/
theorem C6_parse_stops_at_short_line (l : String)
    (hl : (pySplit l).length ≤ 1) :
    (∀ (pre post post' : List String) (cpu_count : Nat)
        (acc : List (String × List Int)),
      parseIrqLines (pre ++ l :: post) cpu_count acc =
        parseIrqLines (pre ++ l :: post') cpu_count acc) ∧
    (∀ (post : List String) (cpu_count : Nat)
        (acc : List (String × List Int)),
      parseIrqLines (l :: post) cpu_count acc = Except.ok acc) := by
  refine ⟨parseIrqLines_post_indep l hl, ?_⟩
  intro post cpu_count acc
  rw [parseIrqLines_cons, if_pos hl]

/-- Witness for C6: the empty line produced at end of table stops parsing
regardless of what junk follows. -/
theorem C6_parse_stops_at_short_line_witness :
    parseIrqLines ["16: 1 2", "", "junk"] 3 [] =
      parseIrqLines ["16: 1 2", "", "other"] 3 [] ∧
    parseIrqLines ["", "junk"] 3 [] = Except.ok [] :=
  ⟨(C6_parse_stops_at_short_line "" (by decide)).1 ["16: 1 2"] ["junk"]
      ["other"] 3 [],
   (C6_parse_stops_at_short_line "" (by decide)).2 ["junk"] 3 []⟩

/-- C5: a body line that the loop reaches (more than one column, name not
`ERR`/`MIS`) whose count slice fails integer parsing makes the loop raise:
the result is the `Except.error` carrying that line, it is returned to the
caller as is, and in particular no interrupt table is produced. -/
theorem C5_parse_failure_propagates (l : String) (rest : List String)
    (cpu_count : Nat) (acc : List (String × List Int))
    (h1 : 1 < (pySplit l).length)
    (h2 : pyStripColon ((pySplit l).headD "") ≠ "ERR")
    (h3 : pyStripColon ((pySplit l).headD "") ≠ "MIS")
    (h4 : mapParse (((pySplit l).drop 1).take (cpu_count - 1)) = none) :
    parseIrqLines (l :: rest) cpu_count acc = Except.error l ∧
    ∀ tbl, parseIrqLines (l :: rest) cpu_count acc ≠ Except.ok tbl := by
  have heq : parseIrqLines (l :: rest) cpu_count acc = Except.error l := by
    rw [parseIrqLines_cons, if_neg (by omega), if_neg (by tauto), h4]
  refine ⟨heq, ?_⟩
  intro tbl hok
  rw [heq] at hok
  cases hok

/-- Witness for C5: the line `5: xx 0 t` has a non-numeric count column. -/
theorem C5_parse_failure_propagates_witness :
    parseIrqLines ["5: xx 0 t"] 2 [] = Except.error "5: xx 0 t" ∧
    ∀ tbl, parseIrqLines ["5: xx 0 t"] 2 [] ≠ Except.ok tbl :=
  C5_parse_failure_propagates "5: xx 0 t" [] 2 []
    (by decide) (by decide) (by decide) (by decide)

/-- C1 (code bug): evaluating the pipeline on the claimed scenario.  The
slice `columns[1:cpu_count]` keeps only `cpu_count - 1 = 2` counts per
line, so IRQ 17's third column (50, on CPU2) is dropped and its stored
vector `[0, 0]` has no nonzero entry; the aggregate is `[100, 0, 0]`,
not the `[100, 0, 50]` the claim states. -/
theorem C1_end_to_end_eval :
    get_irq_statistics ["CPU0 CPU1 CPU2", "16: 100 0 0 IO-APIC",
        "17: 0 0 50 IO-APIC", "ERR: 3"] =
      Except.ok [("16", [100, 0]), ("17", [0, 0])] ∧
    aggregateExclusive [("16", [100, 0]), ("17", [0, 0])] 3 = [100, 0, 0] ∧
    aggregateExclusive [("16", [100, 0]), ("17", [0, 0])] 3 ≠ [100, 0, 50] :=
  ⟨rfl, rfl, by decide⟩

/-- C2 (code bug): evaluating the parser on the claimed table.  The header
`CPU0 CPU1` gives `cpu_count = 2`, but the accepted line stores the
1-element vector `[10]` (the slice `columns[1:cpu_count]` drops the last
CPU's count), not the 2-element `[10, 0]` required by the claimed
invariant and by the parser's own docstring. -/
theorem C2_single_line_eval :
    get_irq_statistics ["CPU0 CPU1", "5: 10 0 IO-APIC timer"] =
      Except.ok [("5", [10])] ∧
    (pySplit "CPU0 CPU1").length = 2 ∧
    ([(10 : Int)]).length ≠ 2 :=
  ⟨rfl, rfl, by decide⟩

/-! ## Sign of parsed counts -/

theorem parsePyInt_nonneg (s : String) (hs : s.data.head? ≠ some '-')
    (n : Int) (h : parsePyInt s = some n) : 0 ≤ n := by
  cases hd : s.data with
  | nil => simp [parsePyInt, hd] at h
  | cons c rest =>
    have hc : c ≠ '-' := by
      intro hh
      apply hs
      rw [hd, hh]
      rfl
    by_cases hp : c = '+'
    · simp only [parsePyInt, hd, if_neg hc, if_pos hp,
        Option.map_eq_some'] at h
      obtain ⟨m, _, rfl⟩ := h
      exact Int.natCast_nonneg m
    · simp only [parsePyInt, hd, if_neg hc, if_neg hp,
        Option.map_eq_some'] at h
      obtain ⟨m, _, rfl⟩ := h
      exact Int.natCast_nonneg m

theorem mapParse_nonneg (ts : List String)
    (hts : ∀ t ∈ ts, t.data.head? ≠ some '-') (l : List Int)
    (h : mapParse ts = some l) : ∀ x ∈ l, 0 ≤ x := by
  induction ts generalizing l with
  | nil =>
    unfold mapParse at h
    cases h
    simp
  | cons t rest ih =>
    unfold mapParse at h
    cases hp : parsePyInt t with
    | none => rw [hp] at h; cases h
    | some n =>
      rw [hp, Option.map_eq_some'] at h
      obtain ⟨l', hl', rfl⟩ := h
      intro x hx
      rcases List.mem_cons.mp hx with hxn | hxl
      · subst hxn
        exact parsePyInt_nonneg t (hts t (by simp)) x hp
      · exact ih (fun u hu => hts u (by simp [hu])) l' hl' x hxl

theorem dictInsert_mem {d : List (String × List Int)} {k : String}
    {v : List Int} {p : String × List Int} (h : p ∈ dictInsert d k v) :
    p ∈ d ∨ p = (k, v) := by
  unfold dictInsert at h
  split_ifs at h with hc
  · rw [List.mem_map] at h
    obtain ⟨q, hq, hfq⟩ := h
    by_cases hqk : q.1 = k
    · rw [if_pos hqk] at hfq
      right
      exact hfq.symm
    · rw [if_neg hqk] at hfq
      left
      rw [← hfq]
      exact hq
  · rcases List.mem_append.mp h with hd | he
    · left; exact hd
    · right; simpa using he

theorem parseIrqLines_nonneg (lines : List String) :
    ∀ (cpu_count : Nat) (acc tbl : List (String × List Int)),
      (∀ l ∈ lines, ∀ t ∈ pySplit l, t.data.head? ≠ some '-') →
      (∀ p ∈ acc, ∀ x ∈ p.2, 0 ≤ x) →
      parseIrqLines lines cpu_count acc = Except.ok tbl →
      ∀ p ∈ tbl, ∀ x ∈ p.2, 0 ≤ x := by
  induction lines with
  | nil =>
    intro cpu_count acc tbl _ hacc h
    cases h
    exact hacc
  | cons l rest ih =>
    intro cpu_count acc tbl hl hacc h
    rw [parseIrqLines_cons] at h
    split_ifs at h with h1 h2
    · cases h
      exact hacc
    · exact ih cpu_count acc tbl (fun m hm => hl m (by simp [hm])) hacc h
    · cases hm : mapParse (((pySplit l).drop 1).take (cpu_count - 1)) with
      | none => rw [hm] at h; cases h
      | some v =>
        rw [hm] at h
        refine ih cpu_count _ tbl (fun m hmm => hl m (by simp [hmm])) ?_ h
        intro p hp
        rcases dictInsert_mem hp with hpd | hpe
        · exact hacc p hpd
        · rw [hpe]
          intro x hx
          refine mapParse_nonneg _ ?_ v hm x hx
          intro t ht
          exact hl l (by simp) t
            (List.mem_of_mem_drop (List.mem_of_mem_take ht))

/-- C8 counterexample: `int(x)` accepts a signed numeral, so a count column
`-3` parses and is stored as a negative value; the table produced for this
input refutes "every stored count is non-negative". -/
theorem C8_counterexample :
    get_irq_statistics ["CPU0 CPU1 CPU2", "5: -3 0 x"] =
      Except.ok [("5", [-3, 0])] ∧
    ¬ ∀ p ∈ [(("5" : String), [(-3 : Int), 0])], ∀ x ∈ p.2, 0 ≤ x :=
  ⟨rfl, by decide⟩

/-- C8 as amended: every stored count is the integer value of its column
token, so whenever no token of the input starts with a minus sign (as in
every genuine interrupt table), every value stored in the resulting
interrupt table is non-negative. -/
theorem C8_counts_nonneg_without_minus (lines : List String)
    (hs : ∀ l ∈ lines, ∀ t ∈ pySplit l, t.data.head? ≠ some '-')
    (tbl : List (String × List Int))
    (hok : get_irq_statistics lines = Except.ok tbl) :
    ∀ p ∈ tbl, ∀ x ∈ p.2, 0 ≤ x := by
  cases lines with
  | nil =>
    cases hok
    simp
  | cons header rest =>
    exact parseIrqLines_nonneg rest ((pySplit header).length) [] tbl
      (fun l hl => hs l (by simp [hl])) (by simp) hok

/-- Witness for amended C8 on a well-formed two-CPU table: the stored count
10 is non-negative. -/
theorem C8_counts_nonneg_without_minus_witness :
    get_irq_statistics ["CPU0 CPU1", "5: 10 0 t"] = Except.ok [("5", [10])] ∧
    (0 : Int) ≤ 10 :=
  ⟨rfl,
   C8_counts_nonneg_without_minus ["CPU0 CPU1", "5: 10 0 t"] (by decide)
     [("5", [10])] rfl ("5", [10]) (by simp) 10 (by simp)⟩
